import Mathlib

/-!
Verification of the collision-quad particle simulation (`src/main.rs`).

The development shallowly embeds the quadtree spatial index and the per-tick
simulation engine.  `f64` values are embedded as exact rationals (`ℚ`);
`f64::sqrt` is embedded by `ratSqrt`, which is exact on every input at which
the theorems below evaluate it.  The fallible/possibly-nonterminating parts
of `insert` (recursion depth, `Option::unwrap` on child nodes) are made
explicit with a fuel parameter and `Option` results: a `none` result marks a
computation the Rust program would not complete normally.
-/

set_option allowUnsafeReducibility true

/-- `struct Position { x: f64, y: f64 }`. -/
structure Position where
  x : ℚ
  y : ℚ
deriving DecidableEq

/-- `struct Velocity { x: f64, y: f64 }`. -/
structure Velocity where
  x : ℚ
  y : ℚ
deriving DecidableEq

/-- The four draw colors used by the program (`RED, GREEN, BLUE, YELLOW`);
they double as the particle's interaction type. -/
inductive Color where
  | red
  | green
  | blue
  | yellow
deriving DecidableEq

/-- `struct Particle { position, color, velocity }`. -/
structure Particle where
  position : Position
  color : Color
  velocity : Velocity
deriving DecidableEq

/-- `struct Rectangle { height, width, position }` (field order as in the source). -/
structure Rectangle where
  height : ℚ
  width : ℚ
  position : Position
deriving DecidableEq

/-- `struct QuadTree { boundary, capacity, points, is_divided, top_left,
top_right, bottom_left, bottom_right }`; the four children are `Option`al
boxed subtrees exactly as in the source. -/
inductive QuadTree : Type where
  | node (boundary : Rectangle) (capacity : Nat) (points : List Particle)
      (is_divided : Bool)
      (top_left top_right bottom_left bottom_right : Option QuadTree) : QuadTree

namespace QuadTree

/-- Field accessor for `boundary`. -/
def boundary : QuadTree → Rectangle
  | node b _ _ _ _ _ _ _ => b

/-- Field accessor for `capacity`. -/
def capacity : QuadTree → Nat
  | node _ c _ _ _ _ _ _ => c

/-- Field accessor for `points`. -/
def points : QuadTree → List Particle
  | node _ _ pts _ _ _ _ _ => pts

/-- `QuadTree::new`: a leaf with the given boundary and capacity, no points,
not divided, no children.  (Note: the source performs no validation of
`capacity` here.) -/
def new (boundary : Rectangle) (capacity : Nat) : QuadTree :=
  node boundary capacity [] false none none none none

end QuadTree

/-- The inclusive point-in-rectangle test of `QuadTree::within_boundary`:
`x >= bx && x <= bx + w && y >= by && y <= by + h`. -/
def rect_contains (b : Rectangle) (p : Position) : Bool :=
  decide (b.position.x ≤ p.x) && decide (p.x ≤ b.position.x + b.width) &&
  decide (b.position.y ≤ p.y) && decide (p.y ≤ b.position.y + b.height)

/-- The top-left quarter built by `QuadTree::subdivide`. -/
def quarterTL (b : Rectangle) : Rectangle :=
  ⟨b.height / 2, b.width / 2, ⟨b.position.x, b.position.y⟩⟩

/-- The top-right quarter built by `QuadTree::subdivide`. -/
def quarterTR (b : Rectangle) : Rectangle :=
  ⟨b.height / 2, b.width / 2, ⟨b.position.x + b.width / 2, b.position.y⟩⟩

/-- The bottom-left quarter built by `QuadTree::subdivide`. -/
def quarterBL (b : Rectangle) : Rectangle :=
  ⟨b.height / 2, b.width / 2, ⟨b.position.x, b.position.y + b.height / 2⟩⟩

/-- The bottom-right quarter built by `QuadTree::subdivide`. -/
def quarterBR (b : Rectangle) : Rectangle :=
  ⟨b.height / 2, b.width / 2,
    ⟨b.position.x + b.width / 2, b.position.y + b.height / 2⟩⟩

namespace QuadTree

/-- `QuadTree::subdivide`: install four fresh leaf children on the exact
quarters of the boundary and set `is_divided`. -/
def subdivide : QuadTree → QuadTree
  | node b c pts _ _ _ _ _ =>
    node b c pts true
      (some (new (quarterTL b) c)) (some (new (quarterTR b) c))
      (some (new (quarterBL b) c)) (some (new (quarterBR b) c))

/-- `QuadTree::within_boundary` applied to this node's own boundary. -/
def within_boundary (t : QuadTree) (p : Position) : Bool :=
  rect_contains t.boundary p

/-- `QuadTree::does_range_overlap`:
`x + w >= bx && x <= bx + bw && y + h >= by && y <= by + bh`
(the node's boundary is `b`, the query window is `range`). -/
def does_range_overlap (b range : Rectangle) : Bool :=
  decide (range.position.x + range.width ≥ b.position.x) &&
  decide (range.position.x ≤ b.position.x + b.width) &&
  decide (range.position.y + range.height ≥ b.position.y) &&
  decide (range.position.y ≤ b.position.y + b.height)

/-- The chained hand-off of `insert` through the four children
(`top_left`, `top_right`, `bottom_left`, `bottom_right` in that order), each
child receiving the particle the previous one returned.  Parametrised by the
one-step insert so the same chain can be reasoned about generically. -/
def insertChain (ins : QuadTree → Option Particle → Option (QuadTree × Option Particle))
    (q1 q2 q3 q4 : QuadTree) (op : Option Particle) :
    Option ((QuadTree × QuadTree × QuadTree × QuadTree) × Option Particle) :=
  (ins q1 op).bind fun s1 =>
  (ins q2 s1.2).bind fun s2 =>
  (ins q3 s2.2).bind fun s3 =>
  (ins q4 s3.2).map fun s4 =>
  ((s1.1, s2.1, s3.1, s4.1), s4.2)

/-- `QuadTree::insert`, with a fuel bound on the recursion depth.  A `none`
result means the Rust call would not return normally at this fuel (unbounded
recursion, or an `unwrap` of an absent child).  On `some (t, r)`, `t` is the
updated tree and `r` is the `Option<Particle>` the Rust function returns. -/
def insert : Nat → QuadTree → Option Particle → Option (QuadTree × Option Particle)
  | 0, _, _ => none
  | _ + 1, t, none => some (t, none)
  | n + 1, node b c pts dv tl tr bl br, some p =>
    if rect_contains b p.position then
      if pts.length < c then
        some (node b c (pts ++ [p]) dv tl tr bl br, none)
      else
        match (if dv then node b c pts dv tl tr bl br
               else subdivide (node b c pts dv tl tr bl br)) with
        | node b2 c2 pts2 dv2 tl2 tr2 bl2 br2 =>
          match tl2, tr2, bl2, br2 with
          | some q1, some q2, some q3, some q4 =>
            (insertChain (insert n) q1 q2 q3 q4 (some p)).map fun s =>
              (node b2 c2 pts2 dv2 (some s.1.1) (some s.1.2.1)
                (some s.1.2.2.1) (some s.1.2.2.2), s.2)
          | _, _, _, _ => none
    else
      some (node b c pts dv tl tr bl br, some p)

/-- `QuadTree::query`.  The result is `none` only when an `unwrap` of an
absent child would panic.  Note the source re-tests each stored point against
the node's own `boundary` (`self.within_boundary`), not against `range`. -/
def query : QuadTree → Rectangle → Option (List Particle)
  | node b _ pts dv tl tr bl br, range =>
    if does_range_overlap b range then
      let found := pts.filter fun pt => rect_contains b pt.position
      if dv then
        match tl, tr, bl, br with
        | some t1, some t2, some t3, some t4 =>
          (query t1 range).bind fun l1 =>
          (query t2 range).bind fun l2 =>
          (query t3 range).bind fun l3 =>
          (query t4 range).map fun l4 =>
          found ++ l1 ++ l2 ++ l3 ++ l4
        | _, _, _, _ => none
      else
        some found
    else
      some []

/-- `QuadTree::clear_quadtree`: drop all points and children, reset the
divided flag; boundary and capacity are kept. -/
def clear_quadtree : QuadTree → QuadTree
  | node b c _ _ _ _ _ _ => node b c [] false none none none none

/-- All points stored anywhere in the tree, in depth-first order
(own points, then the four children in insertion order). -/
def toList : QuadTree → List Particle
  | node _ _ pts _ tl tr bl br =>
    pts ++ (match tl with | some t1 => toList t1 | none => [])
        ++ (match tr with | some t2 => toList t2 | none => [])
        ++ (match bl with | some t3 => toList t3 | none => [])
        ++ (match br with | some t4 => toList t4 | none => [])

end QuadTree

/-- Inserting a list of particles one by one, each via `quadtree.insert(Some(p))`,
discarding the returned `Option<Particle>` exactly as `main` does. -/
def insertAll (fuel : Nat) : QuadTree → List Particle → Option QuadTree
  | t, [] => some t
  | t, p :: ps => (QuadTree.insert fuel t (some p)).bind fun s => insertAll fuel s.1 ps

/-- The `query` result read as a multiset (forgetting the order, which the
spec leaves unspecified). -/
def queryMultiset (t : QuadTree) (range : Rectangle) : Option (Multiset Particle) :=
  (QuadTree.query t range).map fun l => Multiset.ofList l

/-- `move_particle`: `position += velocity * t`. -/
def move_particle (p : Particle) (t : ℚ) : Particle :=
  { p with position := ⟨p.position.x + p.velocity.x * t, p.position.y + p.velocity.y * t⟩ }

/-- `colour_attraction_factor_matrix`: rows/columns are red, green, blue,
yellow; `0.8` on the diagonal and `-0.8` off it, exactly the entries the
source assigns. -/
def colour_attraction_factor_matrix : List (List ℚ) :=
  [[0.8, -0.8, -0.8, -0.8],
   [-0.8, 0.8, -0.8, -0.8],
   [-0.8, -0.8, 0.8, -0.8],
   [-0.8, -0.8, -0.8, 0.8]]

/-- `color_to_index`: RED ↦ 0, GREEN ↦ 1, BLUE ↦ 2, anything else ↦ 3. -/
def color_to_index : Color → Nat
  | .red => 0
  | .green => 1
  | .blue => 2
  | .yellow => 3

/-- The affinity-matrix entry looked up inside `get_force`
(`color_matrix[c_1_idx][c_2_idx]`; both indices are always in range). -/
def attraction_factor (c1 c2 : Color) : ℚ :=
  (colour_attraction_factor_matrix.getD (color_to_index c1) []).getD (color_to_index c2) 0

/-- `const BETA: f64 = 0.3`. -/
def BETA : ℚ := 0.3

/-- `get_force(r, p1_color, p2_color)`: the three-branch force law of the
source, with its strict comparisons (`r < BETA`, `BETA < r && r < 1.0`)
kept as written. -/
def get_force (r : ℚ) (p1_color p2_color : Color) : ℚ :=
  if r < BETA then
    r / BETA - 1
  else if BETA < r ∧ r < 1 then
    (1 - |2 * r - BETA| / 1 - BETA) * attraction_factor p1_color p2_color
  else
    0

/-- Fuel-driven binary search for the integer square root: maintains
`lo² ≤ n < hi²` and returns `lo` once the fuel runs out (the initial fuel is
always sufficient for the interval to collapse). -/
def nsqrtGo : Nat → Nat → Nat → Nat → Nat
  | 0, _, lo, _ => lo
  | f + 1, n, lo, hi =>
    let mid := (lo + hi + 1) / 2
    if mid * mid ≤ n then nsqrtGo f n mid hi else nsqrtGo f n lo mid

/-- Integer square root (floor), computable by kernel reduction. -/
def nsqrt (n : Nat) : Nat := nsqrtGo (n + 2) n 0 (n + 1)

/-- Modelled from the source's `f64::sqrt` (the standard library, not part of
the repository): an exact rational square root, agreeing with `f64::sqrt` on
every input whose square root is exactly representable — the only inputs at
which the theorems below evaluate it.  On other inputs it returns a junk
value (`0`), never inspected by any theorem. -/
def ratSqrt (q : ℚ) : ℚ :=
  if 0 ≤ q ∧ nsqrt q.num.toNat * nsqrt q.num.toNat = q.num.toNat ∧
      nsqrt q.den * nsqrt q.den = q.den then
    (nsqrt q.num.toNat : ℚ) / (nsqrt q.den : ℚ)
  else 0

/-- The `next_time_position` computed at the top of the per-particle loop:
current position plus `velocity * t`. -/
def next_time_position (p : Particle) (t : ℚ) : Position :=
  ⟨p.position.x + p.velocity.x * t, p.position.y + p.velocity.y * t⟩

/-- The query window `main` builds for a particle: height and width
`1.5 * radius`, origin at `next_time_position - 1.5 * radius` in each axis
(so the projected position is the window's maximal corner). -/
def queryRect (p : Particle) (t radius : ℚ) : Rectangle :=
  ⟨1.5 * radius, 1.5 * radius,
    ⟨(next_time_position p t).x - 1.5 * radius,
     (next_time_position p t).y - 1.5 * radius⟩⟩

/-- Modelled from the spec: a query `Region` *centered* on the projected next
position, "extending a half-width and half-height of 1.5 × particle radius on
each side" — total extent `3 * radius`, centre at `next_time_position`.
Stated only to be compared against the source's `queryRect`. -/
def queryRectSpec (p : Particle) (t radius : ℚ) : Rectangle :=
  ⟨2 * (1.5 * radius), 2 * (1.5 * radius),
    ⟨(next_time_position p t).x - 1.5 * radius,
     (next_time_position p t).y - 1.5 * radius⟩⟩

/-- The neighbour query `main` issues for particle `p`:
`quadtree.query(&Rectangle { ... })` with the window of `queryRect`. -/
def tickQuery (qt : QuadTree) (p : Particle) (t radius : ℚ) : Option (List Particle) :=
  QuadTree.query qt (queryRect p t radius)

/-- The force-accumulation loop body over the queried neighbours: skips a
neighbour unless both coordinates differ, computes displacement, distance and
direction, and accumulates `get_force(distance/100, ...) * direction` when
`distance < 100.0` (`threshold` is the literal `100.0` of the source). -/
def accumulate_force (p : Particle) (acc : ℚ × ℚ) (np : Particle) : ℚ × ℚ :=
  if np.position.x ≠ p.position.x ∧ np.position.y ≠ p.position.y then
    let dx := np.position.x - p.position.x
    let dy := np.position.y - p.position.y
    let distance_squared := dx ^ 2 + dy ^ 2
    let distance := ratSqrt distance_squared
    let direction_x := dx / ratSqrt distance_squared
    let direction_y := dy / ratSqrt distance_squared
    if distance < 100 then
      let force := get_force (distance / 100) p.color np.color
      (acc.1 + force * direction_x, acc.2 + force * direction_y)
    else acc
  else acc

/-- One particle's update inside the tick loop: query neighbours, accumulate
force, scale by `threshold` into an acceleration, damp-and-integrate the
velocity (`0.90 * v + a * t`), reflect off the walls using the *current*
position, move, and re-insert the updated particle into the partition.
`none` marks a query panic or an insert that does not complete. -/
def tickParticle (width height radius t : ℚ) (fuel : Nat) (qt : QuadTree)
    (p : Particle) : Option (QuadTree × Particle) :=
  (tickQuery qt p t radius).bind fun near_particles =>
  let f := near_particles.foldl (accumulate_force p) (0, 0)
  let final_acceleration_x := f.1 * 100
  let final_acceleration_y := f.2 * 100
  let vx := 0.90 * p.velocity.x + final_acceleration_x * t
  let vy := 0.90 * p.velocity.y + final_acceleration_y * t
  let vx := if p.position.x < radius + 5 ∨ p.position.x > width - radius - 5 then -vx else vx
  let vy := if p.position.y < radius + 5 ∨ p.position.y > height - radius - 5 then -vy else vy
  let p1 := move_particle { p with velocity := ⟨vx, vy⟩ } t
  (QuadTree.insert fuel qt (some p1)).map fun s => (s.1, p1)

/-- The per-particle loop over the whole particle list, threading the
partition state left to right as `main` does. -/
def tickLoop (width height radius t : ℚ) (fuel : Nat) :
    QuadTree → List Particle → Option (QuadTree × List Particle)
  | qt, [] => some (qt, [])
  | qt, p :: ps =>
    (tickParticle width height radius t fuel qt p).bind fun s =>
    (tickLoop width height radius t fuel s.1 ps).map fun s2 =>
    (s2.1, s.2 :: s2.2)

/-- One full tick of `main`'s loop body: `quadtree.clear_quadtree()` followed
by the per-particle loop.  No bulk re-insertion of the particle list happens
between the clear and the first query. -/
def tick (width height radius t : ℚ) (fuel : Nat) (qt : QuadTree)
    (particles : List Particle) : Option (QuadTree × List Particle) :=
  tickLoop width height radius t fuel (QuadTree.clear_quadtree qt) particles

/-- All points of the tree, counted with multiplicity. -/
def toMultiset (t : QuadTree) : Multiset Particle :=
  Multiset.ofList (QuadTree.toList t)

/-- `inner` lies entirely inside `outer` (as closed axis-aligned rectangles). -/
def rectSub (inner outer : Rectangle) : Prop :=
  outer.position.x ≤ inner.position.x ∧
  inner.position.x + inner.width ≤ outer.position.x + outer.width ∧
  outer.position.y ≤ inner.position.y ∧
  inner.position.y + inner.height ≤ outer.position.y + outer.height

/-- Well-formedness of a quadtree state as `insert` produces it: every node's
dimensions are nonnegative, every stored point lies within its node's
boundary, the divided flag agrees with the presence of all four children, and
the children sit on the exact quarters of the parent boundary. -/
inductive WF : QuadTree → Prop where
  | leaf (b : Rectangle) (c : Nat) (pts : List Particle)
      (hw : 0 ≤ b.width) (hh : 0 ≤ b.height)
      (hpts : ∀ p ∈ pts, rect_contains b p.position = true) :
      WF (QuadTree.node b c pts false none none none none)
  | split (b : Rectangle) (c : Nat) (pts : List Particle)
      (t1 t2 t3 t4 : QuadTree)
      (hw : 0 ≤ b.width) (hh : 0 ≤ b.height)
      (hpts : ∀ p ∈ pts, rect_contains b p.position = true)
      (hb1 : t1.boundary = quarterTL b) (hb2 : t2.boundary = quarterTR b)
      (hb3 : t3.boundary = quarterBL b) (hb4 : t4.boundary = quarterBR b)
      (h1 : WF t1) (h2 : WF t2) (h3 : WF t3) (h4 : WF t4) :
      WF (QuadTree.node b c pts true (some t1) (some t2) (some t3) (some t4))

/-- Structural coherence of the divided flag with the children, recursively:
a node either has `is_divided = false` and no children at all, or
`is_divided = true` and all four children present (themselves coherent).
This is exactly the property that protects every `unwrap()` in the source's
`insert` and `query`. -/
inductive ChildInv : QuadTree → Prop where
  | leaf (b : Rectangle) (c : Nat) (pts : List Particle) :
      ChildInv (QuadTree.node b c pts false none none none none)
  | split (b : Rectangle) (c : Nat) (pts : List Particle)
      (t1 t2 t3 t4 : QuadTree) :
      ChildInv t1 → ChildInv t2 → ChildInv t3 → ChildInv t4 →
      ChildInv (QuadTree.node b c pts true (some t1) (some t2) (some t3) (some t4))

/-- The quadtree states reachable from `QuadTree::new` by any sequence of the
source's mutating operations (`insert`, `subdivide`, `clear_quadtree`). -/
inductive Reachable : QuadTree → Prop where
  | new (b : Rectangle) (c : Nat) : Reachable (QuadTree.new b c)
  | subdiv {t : QuadTree} : Reachable t → Reachable (QuadTree.subdivide t)
  | clear {t : QuadTree} : Reachable t → Reachable (QuadTree.clear_quadtree t)
  | ins {t t2 : QuadTree} {r : Option Particle} (fuel : Nat) (op : Option Particle) :
      Reachable t → QuadTree.insert fuel t op = some (t2, r) → Reachable t2

/-! ### Concrete instances used by counterexamples and witnesses. -/

/-- The root boundary `main` builds: origin `(5, 5)`, size `width - 5` by
`height - 5` for a `1000 × 1000` arena. -/
def bMain : Rectangle := ⟨995, 995, ⟨5, 5⟩⟩

/-- A simple square root-boundary for the quadtree unit scenarios. -/
def b0 : Rectangle := ⟨100, 100, ⟨0, 0⟩⟩

/-- First particle of the tick-snapshot scenario, at rest at `(50, 50)`. -/
def p1c : Particle := ⟨⟨50, 50⟩, .red, ⟨0, 0⟩⟩

/-- Second particle of the tick-snapshot scenario, at rest at `(45, 45)`,
inside the first particle's query window. -/
def p2c : Particle := ⟨⟨45, 45⟩, .red, ⟨0, 0⟩⟩

/-- The partition holding `p1c` and `p2c`, as produced by inserting both into
a fresh tree over `bMain` with `main`'s capacity 4. -/
def qtC1 : QuadTree := QuadTree.node bMain 4 [p1c, p2c] false none none none none

/-- First particle of the two-particle end-to-end scenario: at rest at
`(100, 100)`. -/
def p61 : Particle := ⟨⟨100, 100⟩, .red, ⟨0, 0⟩⟩

/-- Second particle of the two-particle end-to-end scenario: same type, at
rest at `(130, 140)` — exactly 50 units from `p61` (a 30-40-50 triangle, so
the distance is exactly representable). -/
def p62 : Particle := ⟨⟨130, 140⟩, .red, ⟨0, 0⟩⟩

/-- The partition holding the end-to-end pair. -/
def qt6 : QuadTree := QuadTree.node bMain 4 [p61, p62] false none none none none

/-- A particle at `(90, 90)`: stored inside `b0` but far outside the small
query window `rC2`. -/
def pC2 : Particle := ⟨⟨90, 90⟩, .green, ⟨0, 0⟩⟩

/-- A `10 × 10` query window at the origin; it overlaps `b0` but does not
contain `pC2`. -/
def rC2 : Rectangle := ⟨10, 10, ⟨0, 0⟩⟩

/-- The one-particle tree for the query-soundness failing input. -/
def qtC2 : QuadTree := QuadTree.node b0 4 [pC2] false none none none none

/-- A particle inside `b0`, used by containment witnesses. -/
def pa : Particle := ⟨⟨10, 10⟩, .red, ⟨0, 0⟩⟩

/-- A second particle inside `b0`. -/
def pb : Particle := ⟨⟨20, 30⟩, .blue, ⟨0, 0⟩⟩

/-- The tree obtained by inserting `pa` then `pb` into a fresh tree over `b0`. -/
def tC5 : QuadTree := QuadTree.node b0 4 [pa, pb] false none none none none

/-- A particle at `(200, 50)`, outside `b0`. -/
def pOut : Particle := ⟨⟨200, 50⟩, .yellow, ⟨0, 0⟩⟩

/-! ### Basic lemmas about the embedded operations. -/

theorem insert_none_eq (fuel : Nat) (t : QuadTree) :
    QuadTree.insert (fuel + 1) t none = some (t, none) := by
  cases t with
  | node b c pts dv tl tr bl br => rfl

theorem insert_reject (fuel : Nat) (t : QuadTree) (p : Particle)
    (h : rect_contains t.boundary p.position = false) :
    QuadTree.insert (fuel + 1) t (some p) = some (t, some p) := by
  cases t with
  | node b c pts dv tl tr bl br =>
    simp only [QuadTree.boundary] at h
    simp [QuadTree.insert, h]

theorem insert_none_cases (fuel : Nat) (t : QuadTree) :
    QuadTree.insert fuel t none = none ∨ QuadTree.insert fuel t none = some (t, none) := by
  cases fuel with
  | zero => left; rfl
  | succ n => right; exact insert_none_eq n t

theorem insert_reject_cases (fuel : Nat) (t : QuadTree) (p : Particle)
    (h : rect_contains t.boundary p.position = false) :
    QuadTree.insert fuel t (some p) = none ∨
    QuadTree.insert fuel t (some p) = some (t, some p) := by
  cases fuel with
  | zero => left; rfl
  | succ n => right; exact insert_reject n t p h

/-! ### C1: the tick-start snapshot. -/

/-- Claim C1 (corrected): at the start of a tick `main` only *clears* the
partition; it does not re-insert the particle list before querying, so the
partition every tick's first query runs against is empty: its stored
contents are `[]` and any query against it returns no particles.  Each
particle becomes visible to later queries of the same tick only after its own
update re-inserts it (`tickParticle`). -/
theorem clear_quadtree_empties_every_query (qt : QuadTree) (range : Rectangle)
    (width height radius t : ℚ) (fuel : Nat) (particles : List Particle) :
    tick width height radius t fuel qt particles =
      tickLoop width height radius t fuel (QuadTree.clear_quadtree qt) particles ∧
    QuadTree.toList (QuadTree.clear_quadtree qt) = [] ∧
    QuadTree.query (QuadTree.clear_quadtree qt) range = some [] := by
  cases qt with
  | node b c pts dv tl tr bl br =>
    refine ⟨rfl, by simp [QuadTree.clear_quadtree, QuadTree.toList], ?_⟩
    simp only [QuadTree.clear_quadtree, QuadTree.query]
    split <;> simp

/-! ### C4: the per-particle query window. -/

/-- Claim C4 (corrected): the window `main` queries has width and height
`1.5 * radius` (not `3 * radius`), and its origin sits at the projected next
position minus `1.5 * radius` in each axis — so the projected position is the
window's *maximal corner*, not its centre. -/
theorem queryRect_corner (p : Particle) (t radius : ℚ) (qt : QuadTree) :
    tickQuery qt p t radius = QuadTree.query qt (queryRect p t radius) ∧
    (queryRect p t radius).width = 1.5 * radius ∧
    (queryRect p t radius).height = 1.5 * radius ∧
    (queryRect p t radius).position.x + (queryRect p t radius).width =
      (next_time_position p t).x ∧
    (queryRect p t radius).position.y + (queryRect p t radius).height =
      (next_time_position p t).y := by
  refine ⟨rfl, rfl, rfl, ?_, ?_⟩ <;> simp [queryRect]

/-! ### C7: construction does not validate capacity. -/

/-- Claim C7, counterexample: `new` rejects nothing — with capacity `0` it
successfully constructs an ordinary leaf node holding that capacity. -/
theorem new_accepts_zero_capacity :
    QuadTree.new b0 0 = QuadTree.node b0 0 [] false none none none none ∧
    (QuadTree.new b0 0).capacity = 0 :=
  ⟨rfl, rfl⟩

/-! ### C8: out-of-boundary insertion. -/

/-- Claim C8 (confirmed): inserting a particle whose position fails the
inclusive containment test of `within_boundary` returns the particle to the
caller and leaves the tree exactly as it was, at every positive recursion
budget. -/
theorem insert_rejects_outside (fuel : Nat) (t : QuadTree) (p : Particle)
    (h : rect_contains t.boundary p.position = false) :
    QuadTree.insert (fuel + 1) t (some p) = some (t, some p) :=
  insert_reject fuel t p h

/-! ### The force law: C3 and C9. -/

/-- Unfolding of the inclusive containment test into its four inequalities. -/
theorem rect_contains_iff (b : Rectangle) (p : Position) :
    rect_contains b p = true ↔
      b.position.x ≤ p.x ∧ p.x ≤ b.position.x + b.width ∧
      b.position.y ≤ p.y ∧ p.y ≤ b.position.y + b.height := by
  simp [rect_contains, and_assoc]

/-- A point inside a rectangle lies inside at least one of its four quarters
(the quarters of `subdivide` tile the parent exactly). -/
theorem quarters_cover (b : Rectangle) (p : Position)
    (h : rect_contains b p = true) :
    rect_contains (quarterTL b) p = true ∨ rect_contains (quarterTR b) p = true ∨
    rect_contains (quarterBL b) p = true ∨ rect_contains (quarterBR b) p = true := by
  rw [rect_contains_iff] at h
  obtain ⟨hx1, hx2, hy1, hy2⟩ := h
  simp only [rect_contains_iff, quarterTL, quarterTR, quarterBL, quarterBR]
  rcases le_total p.x (b.position.x + b.width / 2) with hx | hx <;>
    rcases le_total p.y (b.position.y + b.height / 2) with hy | hy
  · exact Or.inl ⟨hx1, by linarith, hy1, by linarith⟩
  · exact Or.inr (Or.inr (Or.inl ⟨hx1, by linarith, by linarith, by linarith⟩))
  · exact Or.inr (Or.inl ⟨by linarith, by linarith, hy1, by linarith⟩)
  · exact Or.inr (Or.inr (Or.inr ⟨by linarith, by linarith, by linarith, by linarith⟩))

/-- Claim C3 (corrected): the tent formula of the spec holds on the *open*
interval `BETA < r < 1`; the endpoint `r = BETA` falls through both strict
branch guards of the source (`r < BETA`, `BETA < r`), see the accompanying
counterexample. -/
theorem get_force_tent_strict (r : ℚ) (c1 c2 : Color)
    (h1 : BETA < r) (h2 : r < 1) :
    get_force r c1 c2 = (1 - |2 * r - BETA| - BETA) * attraction_factor c1 c2 := by
  simp only [get_force]
  rw [if_neg (not_lt.mpr h1.le), if_pos ⟨h1, h2⟩, div_one]

/-- Witness for C3's tent formula at `r = 1/2`. -/
theorem get_force_tent_strict_witness :
    BETA < (1/2 : ℚ) ∧
    get_force (1/2) Color.red Color.red =
      (1 - |2 * (1/2 : ℚ) - BETA| - BETA) * attraction_factor Color.red Color.red :=
  ⟨by norm_num [BETA],
   get_force_tent_strict (1/2) Color.red Color.red (by norm_num [BETA]) (by norm_num)⟩

/-- Claim C9 (confirmed): `get_force` returns exactly `0` for `r ≥ 1`, and on
`0 ≤ r < BETA` it returns a nonpositive value that does not depend on either
color (the first branch never reads the affinity matrix). -/
theorem get_force_far_zero_near_repulsive (r : ℚ) (c1 c2 c1' c2' : Color) :
    (1 ≤ r → get_force r c1 c2 = 0) ∧
    (0 ≤ r → r < BETA →
      get_force r c1 c2 ≤ 0 ∧ get_force r c1' c2' = get_force r c1 c2) := by
  have hb : BETA = 3 / 10 := by norm_num [BETA]
  constructor
  · intro h1
    simp only [get_force]
    rw [if_neg (by rw [hb]; intro hc; linarith), if_neg (by rintro ⟨-, hc⟩; linarith)]
  · intro h0 hr
    simp only [get_force]
    rw [if_pos hr, if_pos hr]
    refine ⟨?_, rfl⟩
    rw [hb] at hr ⊢
    have h3 : r / (3 / 10 : ℚ) ≤ 1 := by
      rw [div_le_one (by norm_num)]
      linarith
    linarith

/-- Witness for C9: zero at `r = 3/2 ≥ 1`, and at `r = 1/5 < BETA` the value
is nonpositive and the same for every color pair. -/
theorem get_force_far_zero_near_repulsive_witness :
    get_force (3/2) Color.red Color.blue = 0 ∧
    (get_force (1/5) Color.red Color.blue ≤ 0 ∧
     get_force (1/5) Color.green Color.yellow = get_force (1/5) Color.red Color.blue) :=
  ⟨(get_force_far_zero_near_repulsive (3/2) Color.red Color.blue
      Color.green Color.yellow).1 (by norm_num),
   (get_force_far_zero_near_repulsive (1/5) Color.red Color.blue
      Color.green Color.yellow).2 (by norm_num) (by norm_num [BETA])⟩

/-! ### C10: coherence of `is_divided` with the four children. -/

theorem childinv_new (b : Rectangle) (c : Nat) : ChildInv (QuadTree.new b c) :=
  ChildInv.leaf b c []

theorem childinv_subdivide (t : QuadTree) : ChildInv (QuadTree.subdivide t) := by
  cases t with
  | node b c pts dv tl tr bl br =>
    exact ChildInv.split b c pts _ _ _ _ (childinv_new _ _) (childinv_new _ _)
      (childinv_new _ _) (childinv_new _ _)

theorem childinv_clear (t : QuadTree) : ChildInv (QuadTree.clear_quadtree t) := by
  cases t with
  | node b c pts dv tl tr bl br => exact ChildInv.leaf b c []

/-- A property preserved by each single insert step is preserved across the
four-child hand-off chain. -/
theorem insertChain_preserves (P : QuadTree → Prop)
    (ins : QuadTree → Option Particle → Option (QuadTree × Option Particle))
    (hstep : ∀ (q : QuadTree) (op : Option Particle) (t2 : QuadTree) (r : Option Particle),
      P q → ins q op = some (t2, r) → P t2)
    (q1 q2 q3 q4 : QuadTree) (op : Option Particle)
    (h1 : P q1) (h2 : P q2) (h3 : P q3) (h4 : P q4)
    (res : (QuadTree × QuadTree × QuadTree × QuadTree) × Option Particle)
    (h : QuadTree.insertChain ins q1 q2 q3 q4 op = some res) :
    P res.1.1 ∧ P res.1.2.1 ∧ P res.1.2.2.1 ∧ P res.1.2.2.2 := by
  unfold QuadTree.insertChain at h
  cases e1 : ins q1 op with
  | none => rw [e1] at h; simp at h
  | some s1 =>
    rw [e1] at h
    simp only [Option.some_bind] at h
    cases e2 : ins q2 s1.2 with
    | none => rw [e2] at h; simp at h
    | some s2 =>
      rw [e2] at h
      simp only [Option.some_bind] at h
      cases e3 : ins q3 s2.2 with
      | none => rw [e3] at h; simp at h
      | some s3 =>
        rw [e3] at h
        simp only [Option.some_bind] at h
        cases e4 : ins q4 s3.2 with
        | none => rw [e4] at h; simp at h
        | some s4 =>
          rw [e4] at h
          simp only [Option.map_some', Option.some.injEq] at h
          subst h
          exact ⟨hstep q1 op s1.1 s1.2 h1 (by rw [e1]),
                 hstep q2 s1.2 s2.1 s2.2 h2 (by rw [e2]),
                 hstep q3 s2.2 s3.1 s3.2 h3 (by rw [e3]),
                 hstep q4 s3.2 s4.1 s4.2 h4 (by rw [e4])⟩

/-- Every successful `insert` preserves the child-coherence invariant. -/
theorem childinv_insert (fuel : Nat) :
    ∀ (t : QuadTree) (op : Option Particle) (t2 : QuadTree) (r : Option Particle),
    ChildInv t → QuadTree.insert fuel t op = some (t2, r) → ChildInv t2 := by
  induction fuel with
  | zero =>
    intro t op t2 r _ h
    exact absurd h (by simp [QuadTree.insert])
  | succ n ih =>
    intro t op t2 r hinv h
    cases op with
    | none =>
      cases t with
      | node b c pts dv tl tr bl br =>
        rw [insert_none_eq] at h
        simp only [Option.some.injEq, Prod.mk.injEq] at h
        rw [← h.1]
        exact hinv
    | some p =>
      cases hinv with
      | leaf b c pts =>
        simp only [QuadTree.insert] at h
        by_cases hc : rect_contains b p.position = true
        · rw [if_pos hc] at h
          by_cases hlen : pts.length < c
          · rw [if_pos hlen] at h
            simp only [Option.some.injEq, Prod.mk.injEq] at h
            rw [← h.1]
            exact ChildInv.leaf _ _ _
          · rw [if_neg hlen] at h
            simp only [Bool.false_eq_true, if_false, QuadTree.subdivide] at h
            cases e : QuadTree.insertChain (QuadTree.insert n)
                (QuadTree.new (quarterTL b) c) (QuadTree.new (quarterTR b) c)
                (QuadTree.new (quarterBL b) c) (QuadTree.new (quarterBR b) c)
                (some p) with
            | none => rw [e] at h; simp at h
            | some res =>
              rw [e] at h
              simp only [Option.map_some', Option.some.injEq, Prod.mk.injEq] at h
              have hres := insertChain_preserves ChildInv (QuadTree.insert n)
                (fun q op t2 r hq hins => ih q op t2 r hq hins)
                _ _ _ _ (some p) (childinv_new _ _) (childinv_new _ _)
                (childinv_new _ _) (childinv_new _ _) res e
              rw [← h.1]
              exact ChildInv.split _ _ _ _ _ _ _ hres.1 hres.2.1 hres.2.2.1 hres.2.2.2
        · rw [if_neg hc] at h
          simp only [Option.some.injEq, Prod.mk.injEq] at h
          rw [← h.1]
          exact ChildInv.leaf _ _ _
      | split b c pts u1 u2 u3 u4 i1 i2 i3 i4 =>
        simp only [QuadTree.insert] at h
        by_cases hc : rect_contains b p.position = true
        · rw [if_pos hc] at h
          by_cases hlen : pts.length < c
          · rw [if_pos hlen] at h
            simp only [Option.some.injEq, Prod.mk.injEq] at h
            rw [← h.1]
            exact ChildInv.split _ _ _ _ _ _ _ i1 i2 i3 i4
          · rw [if_neg hlen] at h
            simp only [if_true] at h
            cases e : QuadTree.insertChain (QuadTree.insert n) u1 u2 u3 u4 (some p) with
            | none => rw [e] at h; simp at h
            | some res =>
              rw [e] at h
              simp only [Option.map_some', Option.some.injEq, Prod.mk.injEq] at h
              have hres := insertChain_preserves ChildInv (QuadTree.insert n)
                (fun q op t2 r hq hins => ih q op t2 r hq hins)
                _ _ _ _ (some p) i1 i2 i3 i4 res e
              rw [← h.1]
              exact ChildInv.split _ _ _ _ _ _ _ hres.1 hres.2.1 hres.2.2.1 hres.2.2.2
        · rw [if_neg hc] at h
          simp only [Option.some.injEq, Prod.mk.injEq] at h
          rw [← h.1]
          exact ChildInv.split _ _ _ _ _ _ _ i1 i2 i3 i4

/-- Under the child-coherence invariant no `unwrap` in `query` can fail. -/
theorem query_isSome_of_childinv : ∀ {t : QuadTree}, ChildInv t →
    ∀ (range : Rectangle), QuadTree.query t range ≠ none := by
  intro t hinv
  induction hinv with
  | leaf b c pts =>
    intro range
    simp only [QuadTree.query]
    split <;> simp
  | split b c pts u1 u2 u3 u4 i1 i2 i3 i4 ih1 ih2 ih3 ih4 =>
    intro range
    simp only [QuadTree.query]
    split
    · cases e1 : QuadTree.query u1 range with
      | none => exact absurd e1 (ih1 range)
      | some l1 =>
        cases e2 : QuadTree.query u2 range with
        | none => exact absurd e2 (ih2 range)
        | some l2 =>
          cases e3 : QuadTree.query u3 range with
          | none => exact absurd e3 (ih3 range)
          | some l3 =>
            cases e4 : QuadTree.query u4 range with
            | none => exact absurd e4 (ih4 range)
            | some l4 => simp [e1, e2, e3, e4]
    · simp

/-- Claim C10 (confirmed): every state reachable from `new` through
`insert`, `subdivide` and `clear_quadtree` satisfies the child-coherence
invariant — `is_divided` is `true` exactly when all four children are
present, recursively — and consequently the child `unwrap`s performed by
`query` (and, by the same invariant, those of `insert`) can never panic. -/
theorem reachable_child_coherence (t : QuadTree) (range : Rectangle)
    (h : Reachable t) : ChildInv t ∧ QuadTree.query t range ≠ none := by
  have hinv : ChildInv t := by
    induction h with
    | new b c => exact childinv_new b c
    | subdiv _ ih => exact childinv_subdivide _
    | clear _ ih => exact childinv_clear _
    | ins fuel op _ hins ih => exact childinv_insert fuel _ op _ _ ih hins
  exact ⟨hinv, query_isSome_of_childinv hinv range⟩

/-- Witness for C10 at a concrete reachable state. -/
theorem reachable_child_coherence_witness :
    ChildInv (QuadTree.new b0 4) ∧ QuadTree.query (QuadTree.new b0 4) b0 ≠ none :=
  reachable_child_coherence (QuadTree.new b0 4) b0 (Reachable.new b0 4)

/-! ### C7: the capacity-0 misconfiguration surfaces at insert, not at new. -/

/-- With capacity 0 everywhere, the chained child hand-off of `insert` can
never finish when the particle is inside at least one of four fresh leaves:
every positive budget is consumed subdividing further. -/
theorem insertChain_zero_none (n : Nat) (a1 a2 a3 a4 : Rectangle) (p : Particle)
    (hz : ∀ bb : Rectangle, rect_contains bb p.position = true →
      QuadTree.insert n (QuadTree.new bb 0) (some p) = none)
    (hcov : rect_contains a1 p.position = true ∨ rect_contains a2 p.position = true ∨
      rect_contains a3 p.position = true ∨ rect_contains a4 p.position = true) :
    QuadTree.insertChain (QuadTree.insert n) (QuadTree.new a1 0) (QuadTree.new a2 0)
      (QuadTree.new a3 0) (QuadTree.new a4 0) (some p) = none := by
  by_cases h1 : rect_contains a1 p.position = true
  · simp [QuadTree.insertChain, hz a1 h1]
  · rcases insert_reject_cases n (QuadTree.new a1 0) p
        (by simpa [QuadTree.new, QuadTree.boundary] using h1) with hr1 | hr1
    · simp [QuadTree.insertChain, hr1]
    · by_cases h2 : rect_contains a2 p.position = true
      · simp [QuadTree.insertChain, hr1, hz a2 h2]
      · rcases insert_reject_cases n (QuadTree.new a2 0) p
            (by simpa [QuadTree.new, QuadTree.boundary] using h2) with hr2 | hr2
        · simp [QuadTree.insertChain, hr1, hr2]
        · by_cases h3 : rect_contains a3 p.position = true
          · simp [QuadTree.insertChain, hr1, hr2, hz a3 h3]
          · rcases insert_reject_cases n (QuadTree.new a3 0) p
                (by simpa [QuadTree.new, QuadTree.boundary] using h3) with hr3 | hr3
            · simp [QuadTree.insertChain, hr1, hr2, hr3]
            · have h4 : rect_contains a4 p.position = true := by tauto
              simp [QuadTree.insertChain, hr1, hr2, hr3, hz a4 h4]

/-- Claim C7 (corrected): `new` performs no validation — it constructs a node
for capacity 0 (see the counterexample) — and the misconfiguration instead
surfaces at `insert`: with capacity 0, inserting any in-bounds particle
recurses forever (in the fueled embedding, it exhausts *every* recursion
budget), mirroring the unbounded subdivision the spec warns about. -/
theorem insert_zero_capacity_never_completes (fuel : Nat) (b : Rectangle) (p : Particle)
    (h : rect_contains b p.position = true) :
    QuadTree.insert fuel (QuadTree.new b 0) (some p) = none := by
  induction fuel generalizing b with
  | zero => rfl
  | succ n ih =>
    have hchain := insertChain_zero_none n (quarterTL b) (quarterTR b) (quarterBL b)
      (quarterBR b) p (fun bb hbb => ih bb hbb) (quarters_cover b p.position h)
    simp only [QuadTree.new] at hchain
    simp only [QuadTree.new, QuadTree.insert, h, if_true, QuadTree.subdivide]
    rw [if_neg (by simp)]
    simp only [Bool.false_eq_true, if_false, QuadTree.subdivide]
    rw [hchain]
    rfl

/-! ### C6: the first-iterated particle of a tick receives no force. -/

/-- Any query against a freshly cleared partition returns no particles. -/
theorem query_cleared (qt : QuadTree) (range : Rectangle) :
    QuadTree.query (QuadTree.clear_quadtree qt) range = some [] := by
  cases qt with
  | node b c pts dv tl tr bl br =>
    simp only [QuadTree.clear_quadtree, QuadTree.query]
    split <;> simp

/-- Claim C6 (corrected): whichever particle a tick processes first runs its
neighbour query against the partition `tick` has just cleared, so — starting
from zero velocity — it accumulates no force and leaves its tick step
completely unchanged, with velocity still exactly `(0, 0)`.  In the spec's
two-particle scenario this is the first of the two particles, so it has no
nonzero velocity component toward the other, refuting the claim for any
arithmetic: every quantity on this code path is exactly zero, so IEEE `f64`
evaluation of the source agrees.  (The second, later-iterated particle is the
only one that can see a neighbour and acquire a velocity.) -/
theorem tick_first_zero_velocity (width height radius t : ℚ) (fuel : Nat)
    (qt qt2 : QuadTree) (p p2 : Particle) (hv : p.velocity = ⟨0, 0⟩)
    (h : tickParticle width height radius t fuel (QuadTree.clear_quadtree qt) p =
      some (qt2, p2)) :
    p2 = p ∧ p2.velocity = ⟨0, 0⟩ := by
  obtain ⟨⟨px, py⟩, col, vel⟩ := p
  simp only at hv
  subst hv
  unfold tickParticle at h
  rw [show tickQuery (QuadTree.clear_quadtree qt) ⟨⟨px, py⟩, col, ⟨0, 0⟩⟩ t radius =
        some [] from query_cleared qt _] at h
  simp only [Option.some_bind, List.foldl_nil, mul_zero, zero_mul, add_zero, zero_add,
    neg_zero, ite_self, move_particle] at h
  cases e : QuadTree.insert fuel (QuadTree.clear_quadtree qt)
      (some ⟨⟨px, py⟩, col, ⟨0, 0⟩⟩) with
  | none => rw [e] at h; simp at h
  | some s =>
    rw [e] at h
    simp only [Option.map_some', Option.some.injEq, Prod.mk.injEq] at h
    exact ⟨h.2.symm, by rw [← h.2]⟩

section ConcreteEvaluation

/-! Concrete evaluations of the embedded code.  The rational arithmetic of
the core library is sealed against definitional unfolding; within this
section it is unsealed so `decide`/`rfl` can run the embedded code on the
concrete inputs of the counterexamples and witnesses. -/

attribute [local semireducible] Rat.mul Rat.add Rat.sub Rat.div Rat.inv
attribute [local semireducible] Rat.normalize Rat.ofScientific

set_option maxRecDepth 100000

/-- Claim C1, counterexample: a concrete two-particle state (both particles
inserted as `main`'s seeding loop does), on which the first particle's
neighbour query of the next tick — issued, per the code path of `tick`,
against `clear_quadtree qtC1` — returns the empty list, even though the
second particle's tick-start position lies inside the queried window.  The
claimed all-particle snapshot does not exist. -/
theorem tick_start_snapshot_missing :
    insertAll 3 (QuadTree.new bMain 4) [p1c, p2c] = some qtC1 ∧
    QuadTree.toList (QuadTree.clear_quadtree qtC1) = [] ∧
    tickQuery (QuadTree.clear_quadtree qtC1) p1c 1 5 = some [] ∧
    rect_contains (queryRect p1c 1 5) p2c.position = true := by
  refine ⟨?_, ?_, ?_, ?_⟩ <;> rfl

/-- Claim C2 (code bug): `query` re-tests each stored item with
`self.within_boundary` — a test against the *node's own boundary*, which
every stored item passes by construction — instead of against `range`.
Concretely: a fresh tree over `b0` holding one particle at `(90, 90)`,
queried with the `10 × 10` window at the origin, returns that particle even
though its position lies outside the window. -/
theorem query_returns_point_outside_range :
    QuadTree.insert 2 (QuadTree.new b0 4) (some pC2) = some (qtC2, none) ∧
    QuadTree.query qtC2 rC2 = some [pC2] ∧
    rect_contains rC2 pC2.position = false := by
  refine ⟨?_, ?_, ?_⟩ <;> rfl

/-- Claim C4, counterexample: for a concrete particle (`p61`, at rest), the
window the code builds differs from the spec's "centered, extending
1.5 × radius on each side" region: the code's window is half its size. -/
theorem queryRect_not_centered : queryRect p61 1 5 ≠ queryRectSpec p61 1 5 := by
  decide

/-- Witness for C8 at a concrete state and particle. -/
theorem insert_rejects_outside_witness :
    rect_contains (QuadTree.new b0 4).boundary pOut.position = false ∧
    QuadTree.insert 4 (QuadTree.new b0 4) (some pOut) =
      some (QuadTree.new b0 4, some pOut) :=
  ⟨by decide, insert_rejects_outside 3 (QuadTree.new b0 4) pOut (by decide)⟩

/-- Claim C3, counterexample: at exactly `r = BETA` the source returns `0`,
while the claimed formula value `(1 - |2·β - β| - β) · a = 0.4 · 0.8` is not
zero for a same-type pair. -/
theorem tent_formula_fails_at_beta :
    get_force BETA Color.red Color.red = 0 ∧
    (1 - |2 * BETA - BETA| - BETA) * attraction_factor Color.red Color.red ≠ 0 := by
  constructor <;> decide

/-- Claim C6, counterexample: the spec's end-to-end scenario (two same-type
particles, 50 units apart — here along a 30-40-50 right triangle so the
distance is exact — `threshold = 100`, zero initial velocities, same-type
affinity `0.8`).  The claim requires *both* particles' post-tick velocities
to have nonzero components toward each other; but the particle iterated
first comes out of the tick completely unchanged, velocity exactly `(0, 0)`:
its neighbour query runs against the just-cleared partition and returns no
candidates, so its accumulated force is identically zero and
`0.90 * 0 + 0 * t = 0`.  Every operand on this particle's code path is
exactly `0`, so the outcome is exact under IEEE `f64` evaluation of the
source as well.  (Nothing is asserted here about the *second* particle's
velocity, whose tiny value is rounding-sensitive.) -/
theorem sametype_pair_first_unmoved :
    tick 1000 1000 5 1 10 qt6 [p61, p62] =
      tickLoop 1000 1000 5 1 10 (QuadTree.clear_quadtree qt6) [p61, p62] ∧
    tickParticle 1000 1000 5 1 10 (QuadTree.clear_quadtree qt6) p61 =
      some (QuadTree.node bMain 4 [p61] false none none none none, p61) ∧
    p61.velocity = ⟨0, 0⟩ ∧
    (tick 1000 1000 5 1 10 qt6 [p61, p62]).map
        (fun s => s.2.head?.map Particle.velocity) = some (some ⟨0, 0⟩) := by
  refine ⟨rfl, ?_, rfl, ?_⟩ <;> rfl

/-- Witness for C6's amended theorem: the scenario's first particle, run
through its tick step against the cleared partition. -/
theorem tick_first_zero_velocity_witness :
    p61.velocity = ⟨0, 0⟩ ∧ (p61 = p61 ∧ p61.velocity = ⟨0, 0⟩) :=
  ⟨rfl, tick_first_zero_velocity 1000 1000 5 1 10 qt6
    (QuadTree.node bMain 4 [p61] false none none none none) p61 p61 rfl (by rfl)⟩

/-- Witness for C7's fuel-exhaustion theorem at a concrete particle and
budget. -/
theorem insert_zero_capacity_never_completes_witness :
    rect_contains b0 pa.position = true ∧
    QuadTree.insert 7 (QuadTree.new b0 0) (some pa) = none :=
  ⟨by decide, insert_zero_capacity_never_completes 7 b0 pa (by decide)⟩

end ConcreteEvaluation

/-! ### C5: containment — support lemmas. -/

theorem toList_no_children (b : Rectangle) (c : Nat) (pts : List Particle) (dv : Bool) :
    QuadTree.toList (QuadTree.node b c pts dv none none none none) = pts := by
  simp [QuadTree.toList]

theorem toList_four_children (b : Rectangle) (c : Nat) (pts : List Particle) (dv : Bool)
    (u1 u2 u3 u4 : QuadTree) :
    QuadTree.toList (QuadTree.node b c pts dv (some u1) (some u2) (some u3) (some u4)) =
      pts ++ QuadTree.toList u1 ++ QuadTree.toList u2 ++
        QuadTree.toList u3 ++ QuadTree.toList u4 := by
  simp [QuadTree.toList]

theorem toMultiset_no_children (b : Rectangle) (c : Nat) (pts : List Particle) (dv : Bool) :
    toMultiset (QuadTree.node b c pts dv none none none none) = Multiset.ofList pts := by
  simp [toMultiset, toList_no_children]

theorem toMultiset_four_children (b : Rectangle) (c : Nat) (pts : List Particle) (dv : Bool)
    (u1 u2 u3 u4 : QuadTree) :
    toMultiset (QuadTree.node b c pts dv (some u1) (some u2) (some u3) (some u4)) =
      Multiset.ofList pts + toMultiset u1 + toMultiset u2 +
        toMultiset u3 + toMultiset u4 := by
  simp [toMultiset, toList_four_children]

theorem toMultiset_new (b : Rectangle) (c : Nat) :
    toMultiset (QuadTree.new b c) = 0 := by
  simp [QuadTree.new, toMultiset_no_children]

theorem wf_new (b : Rectangle) (c : Nat) (hw : 0 ≤ b.width) (hh : 0 ≤ b.height) :
    WF (QuadTree.new b c) :=
  WF.leaf b c [] hw hh (by simp)

theorem rectSub_refl (b : Rectangle) : rectSub b b :=
  ⟨le_refl _, le_refl _, le_refl _, le_refl _⟩

theorem rectSub_trans {a b c : Rectangle} (h1 : rectSub a b) (h2 : rectSub b c) :
    rectSub a c := by
  obtain ⟨x1, x2, y1, y2⟩ := h1
  obtain ⟨x1', x2', y1', y2'⟩ := h2
  exact ⟨le_trans x1' x1, le_trans x2 x2', le_trans y1' y1, le_trans y2 y2'⟩

/-- Each quarter of a nonnegative rectangle lies inside it. -/
theorem quarter_sub (b : Rectangle) (hw : 0 ≤ b.width) (hh : 0 ≤ b.height) :
    rectSub (quarterTL b) b ∧ rectSub (quarterTR b) b ∧
    rectSub (quarterBL b) b ∧ rectSub (quarterBR b) b := by
  refine ⟨⟨le_refl _, by simp [quarterTL]; linarith, le_refl _, by simp [quarterTL]; linarith⟩,
    ⟨by simp [quarterTR]; linarith, by simp [quarterTR]; linarith, le_refl _,
      by simp [quarterTR]; linarith⟩,
    ⟨le_refl _, by simp [quarterBL]; linarith, by simp [quarterBL]; linarith,
      by simp [quarterBL]; linarith⟩,
    ⟨by simp [quarterBR]; linarith, by simp [quarterBR]; linarith,
      by simp [quarterBR]; linarith, by simp [quarterBR]; linarith⟩⟩

/-- A node whose boundary sits inside the query window passes the
rectangle-overlap test. -/
theorem overlap_of_sub (b range : Rectangle) (h : rectSub b range)
    (hw : 0 ≤ b.width) (hh : 0 ≤ b.height) :
    QuadTree.does_range_overlap b range = true := by
  obtain ⟨x1, x2, y1, y2⟩ := h
  simp only [QuadTree.does_range_overlap, Bool.and_eq_true, decide_eq_true_eq, ge_iff_le]
  refine ⟨⟨⟨by linarith, by linarith⟩, by linarith⟩, by linarith⟩

/-- The four-child hand-off stores the particle exactly once when the
particle is inside at least one child, each single step satisfying the
store contract. -/
theorem insertChain_stores (n : Nat) (p : Particle)
    (hstep : ∀ (q : QuadTree) (t2 : QuadTree) (r : Option Particle),
      WF q → rect_contains q.boundary p.position = true →
      QuadTree.insert n q (some p) = some (t2, r) →
      r = none ∧ WF t2 ∧ t2.boundary = q.boundary ∧
        toMultiset t2 = p ::ₘ toMultiset q)
    (q1 q2 q3 q4 : QuadTree)
    (hw1 : WF q1) (hw2 : WF q2) (hw3 : WF q3) (hw4 : WF q4)
    (hcov : rect_contains q1.boundary p.position = true ∨
      rect_contains q2.boundary p.position = true ∨
      rect_contains q3.boundary p.position = true ∨
      rect_contains q4.boundary p.position = true)
    (res : (QuadTree × QuadTree × QuadTree × QuadTree) × Option Particle)
    (h : QuadTree.insertChain (QuadTree.insert n) q1 q2 q3 q4 (some p) = some res) :
    res.2 = none ∧
    WF res.1.1 ∧ WF res.1.2.1 ∧ WF res.1.2.2.1 ∧ WF res.1.2.2.2 ∧
    res.1.1.boundary = q1.boundary ∧ res.1.2.1.boundary = q2.boundary ∧
    res.1.2.2.1.boundary = q3.boundary ∧ res.1.2.2.2.boundary = q4.boundary ∧
    toMultiset res.1.1 + toMultiset res.1.2.1 + toMultiset res.1.2.2.1 +
        toMultiset res.1.2.2.2 =
      p ::ₘ (toMultiset q1 + toMultiset q2 + toMultiset q3 + toMultiset q4) := by
  unfold QuadTree.insertChain at h
  by_cases h1 : rect_contains q1.boundary p.position = true
  · -- stored in the first child
    cases e1 : QuadTree.insert n q1 (some p) with
    | none => rw [e1] at h; simp at h
    | some s1 =>
      rw [e1] at h
      simp only [Option.some_bind] at h
      obtain ⟨hr1, hwa, hba, hma⟩ := hstep q1 s1.1 s1.2 hw1 h1 (by rw [e1])
      rw [hr1] at h
      rcases insert_none_cases n q2 with e2 | e2 <;> rw [e2] at h
      · simp at h
      · simp only [Option.some_bind] at h
        rcases insert_none_cases n q3 with e3 | e3 <;> rw [e3] at h
        · simp at h
        · simp only [Option.some_bind] at h
          rcases insert_none_cases n q4 with e4 | e4 <;> rw [e4] at h
          · simp at h
          · simp only [Option.map_some', Option.some.injEq] at h
            subst h
            refine ⟨rfl, hwa, hw2, hw3, hw4, hba, rfl, rfl, rfl, ?_⟩
            rw [hma]
            simp [Multiset.cons_add]
  · rcases insert_reject_cases n q1 p (by simpa using h1) with e1 | e1 <;> rw [e1] at h
    · simp at h
    · simp only [Option.some_bind] at h
      by_cases h2 : rect_contains q2.boundary p.position = true
      · -- stored in the second child
        cases e2 : QuadTree.insert n q2 (some p) with
        | none => rw [e2] at h; simp at h
        | some s2 =>
          rw [e2] at h
          simp only [Option.some_bind] at h
          obtain ⟨hr2, hwa, hba, hma⟩ := hstep q2 s2.1 s2.2 hw2 h2 (by rw [e2])
          rw [hr2] at h
          rcases insert_none_cases n q3 with e3 | e3 <;> rw [e3] at h
          · simp at h
          · simp only [Option.some_bind] at h
            rcases insert_none_cases n q4 with e4 | e4 <;> rw [e4] at h
            · simp at h
            · simp only [Option.map_some', Option.some.injEq] at h
              subst h
              refine ⟨rfl, hw1, hwa, hw3, hw4, rfl, hba, rfl, rfl, ?_⟩
              rw [hma]
              simp [Multiset.cons_add, Multiset.add_cons]
      · rcases insert_reject_cases n q2 p (by simpa using h2) with e2 | e2 <;> rw [e2] at h
        · simp at h
        · simp only [Option.some_bind] at h
          by_cases h3 : rect_contains q3.boundary p.position = true
          · -- stored in the third child
            cases e3 : QuadTree.insert n q3 (some p) with
            | none => rw [e3] at h; simp at h
            | some s3 =>
              rw [e3] at h
              simp only [Option.some_bind] at h
              obtain ⟨hr3, hwa, hba, hma⟩ := hstep q3 s3.1 s3.2 hw3 h3 (by rw [e3])
              rw [hr3] at h
              rcases insert_none_cases n q4 with e4 | e4 <;> rw [e4] at h
              · simp at h
              · simp only [Option.map_some', Option.some.injEq] at h
                subst h
                refine ⟨rfl, hw1, hw2, hwa, hw4, rfl, rfl, hba, rfl, ?_⟩
                rw [hma]
                simp [Multiset.cons_add, Multiset.add_cons]
          · rcases insert_reject_cases n q3 p (by simpa using h3) with e3 | e3 <;> rw [e3] at h
            · simp at h
            · simp only [Option.some_bind] at h
              have h4 : rect_contains q4.boundary p.position = true := by tauto
              cases e4 : QuadTree.insert n q4 (some p) with
              | none => rw [e4] at h; simp at h
              | some s4 =>
                rw [e4] at h
                simp only [Option.map_some', Option.some.injEq] at h
                obtain ⟨hr4, hwa, hba, hma⟩ := hstep q4 s4.1 s4.2 hw4 h4 (by rw [e4])
                subst h
                refine ⟨hr4, hw1, hw2, hw3, hwa, rfl, rfl, rfl, hba, ?_⟩
                rw [hma]
                simp [Multiset.cons_add, Multiset.add_cons]

theorem ofList_append_singleton (pts : List Particle) (p : Particle) :
    Multiset.ofList (pts ++ [p]) = p ::ₘ Multiset.ofList pts := by
  rw [Multiset.cons_coe]
  exact Multiset.coe_eq_coe.mpr (List.perm_append_singleton p pts)

/-- A successful `insert` of an in-bounds particle into a well-formed tree
returns `None`, preserves well-formedness and the boundary, and adds exactly
one copy of the particle to the stored multiset. -/
theorem insert_stores (fuel : Nat) :
    ∀ (t : QuadTree) (p : Particle) (t2 : QuadTree) (r : Option Particle),
    WF t → rect_contains t.boundary p.position = true →
    QuadTree.insert fuel t (some p) = some (t2, r) →
    r = none ∧ WF t2 ∧ t2.boundary = t.boundary ∧
      toMultiset t2 = p ::ₘ toMultiset t := by
  induction fuel with
  | zero =>
    intro t p t2 r _ _ h
    exact absurd h (by simp [QuadTree.insert])
  | succ n ih =>
    intro t p t2 r hwf hcont h
    cases hwf with
    | leaf b c pts hw hh hpts =>
      simp only [QuadTree.boundary] at hcont
      simp only [QuadTree.insert] at h
      rw [if_pos hcont] at h
      by_cases hlen : pts.length < c
      · rw [if_pos hlen] at h
        simp only [Option.some.injEq, Prod.mk.injEq] at h
        obtain ⟨ht2, hr⟩ := h
        subst ht2
        subst hr
        refine ⟨rfl, ?_, rfl, ?_⟩
        · refine WF.leaf b c (pts ++ [p]) hw hh ?_
          intro x hx
          rcases List.mem_append.mp hx with hx | hx
          · exact hpts x hx
          · rw [List.mem_singleton.mp hx]; exact hcont
        · rw [toMultiset_no_children, toMultiset_no_children, ofList_append_singleton]
      · rw [if_neg hlen] at h
        simp only [Bool.false_eq_true, if_false, QuadTree.subdivide] at h
        cases e : QuadTree.insertChain (QuadTree.insert n) (QuadTree.new (quarterTL b) c)
            (QuadTree.new (quarterTR b) c) (QuadTree.new (quarterBL b) c)
            (QuadTree.new (quarterBR b) c) (some p) with
        | none => rw [e] at h; simp at h
        | some res =>
          rw [e] at h
          simp only [Option.map_some', Option.some.injEq, Prod.mk.injEq] at h
          obtain ⟨ht2, hr⟩ := h
          subst ht2
          subst hr
          have hw2 : (0 : ℚ) ≤ b.width / 2 := by linarith
          have hh2 : (0 : ℚ) ≤ b.height / 2 := by linarith
          obtain ⟨hr0, hwf1, hwf2, hwf3, hwf4, hb1, hb2, hb3, hb4, hms⟩ :=
            insertChain_stores n p (fun q t2 r a b c => ih q p t2 r a b c) _ _ _ _
              (wf_new _ c hw2 hh2) (wf_new _ c hw2 hh2) (wf_new _ c hw2 hh2)
              (wf_new _ c hw2 hh2)
              (by simpa [QuadTree.new, QuadTree.boundary] using quarters_cover b p.position hcont)
              res e
          refine ⟨hr0, ?_, rfl, ?_⟩
          · refine WF.split b c pts _ _ _ _ hw hh hpts ?_ ?_ ?_ ?_ hwf1 hwf2 hwf3 hwf4
            · simpa [QuadTree.new, QuadTree.boundary] using hb1
            · simpa [QuadTree.new, QuadTree.boundary] using hb2
            · simpa [QuadTree.new, QuadTree.boundary] using hb3
            · simpa [QuadTree.new, QuadTree.boundary] using hb4
          · rw [toMultiset_four_children, toMultiset_no_children]
            have hsum : toMultiset res.1.1 + toMultiset res.1.2.1 +
                toMultiset res.1.2.2.1 + toMultiset res.1.2.2.2 = {p} := by
              rw [hms]
              simp [toMultiset_new]
            calc Multiset.ofList pts + toMultiset res.1.1 + toMultiset res.1.2.1 +
                  toMultiset res.1.2.2.1 + toMultiset res.1.2.2.2
                = Multiset.ofList pts + (toMultiset res.1.1 + toMultiset res.1.2.1 +
                    toMultiset res.1.2.2.1 + toMultiset res.1.2.2.2) := by abel
              _ = Multiset.ofList pts + {p} := by rw [hsum]
              _ = p ::ₘ Multiset.ofList pts := by
                    rw [add_comm, Multiset.singleton_add]
    | split b c pts u1 u2 u3 u4 hw hh hpts hb1 hb2 hb3 hb4 h1 h2 h3 h4 =>
      simp only [QuadTree.boundary] at hcont
      simp only [QuadTree.insert] at h
      rw [if_pos hcont] at h
      by_cases hlen : pts.length < c
      · rw [if_pos hlen] at h
        simp only [Option.some.injEq, Prod.mk.injEq] at h
        obtain ⟨ht2, hr⟩ := h
        subst ht2
        subst hr
        refine ⟨rfl, ?_, rfl, ?_⟩
        · refine WF.split b c (pts ++ [p]) _ _ _ _ hw hh ?_ hb1 hb2 hb3 hb4 h1 h2 h3 h4
          intro x hx
          rcases List.mem_append.mp hx with hx | hx
          · exact hpts x hx
          · rw [List.mem_singleton.mp hx]; exact hcont
        · rw [toMultiset_four_children, toMultiset_four_children, ofList_append_singleton]
          simp only [Multiset.cons_add]
      · rw [if_neg hlen] at h
        simp only [if_true] at h
        cases e : QuadTree.insertChain (QuadTree.insert n) u1 u2 u3 u4 (some p) with
        | none => rw [e] at h; simp at h
        | some res =>
          rw [e] at h
          simp only [Option.map_some', Option.some.injEq, Prod.mk.injEq] at h
          obtain ⟨ht2, hr⟩ := h
          subst ht2
          subst hr
          have hcov : rect_contains u1.boundary p.position = true ∨
              rect_contains u2.boundary p.position = true ∨
              rect_contains u3.boundary p.position = true ∨
              rect_contains u4.boundary p.position = true := by
            rw [hb1, hb2, hb3, hb4]
            exact quarters_cover b p.position hcont
          obtain ⟨hr0, hwf1, hwf2, hwf3, hwf4, hc1, hc2, hc3, hc4, hms⟩ :=
            insertChain_stores n p (fun q t2 r a b c => ih q p t2 r a b c) _ _ _ _
              h1 h2 h3 h4 hcov res e
          refine ⟨hr0, ?_, rfl, ?_⟩
          · refine WF.split b c pts _ _ _ _ hw hh hpts ?_ ?_ ?_ ?_ hwf1 hwf2 hwf3 hwf4
            · rw [hc1, hb1]
            · rw [hc2, hb2]
            · rw [hc3, hb3]
            · rw [hc4, hb4]
          · rw [toMultiset_four_children, toMultiset_four_children]
            calc Multiset.ofList pts + toMultiset res.1.1 + toMultiset res.1.2.1 +
                  toMultiset res.1.2.2.1 + toMultiset res.1.2.2.2
                = Multiset.ofList pts + (toMultiset res.1.1 + toMultiset res.1.2.1 +
                    toMultiset res.1.2.2.1 + toMultiset res.1.2.2.2) := by abel
              _ = Multiset.ofList pts + (p ::ₘ (toMultiset u1 + toMultiset u2 +
                    toMultiset u3 + toMultiset u4)) := by rw [hms]
              _ = p ::ₘ (Multiset.ofList pts + (toMultiset u1 + toMultiset u2 +
                    toMultiset u3 + toMultiset u4)) := by rw [Multiset.add_cons]
              _ = p ::ₘ (Multiset.ofList pts + toMultiset u1 + toMultiset u2 +
                    toMultiset u3 + toMultiset u4) := by
                    congr 1
                    abel

/-- Inserting a list of in-bounds particles into a well-formed tree adds
exactly that multiset. -/
theorem insertAll_stores : ∀ (ps : List Particle) (fuel : Nat) (t t2 : QuadTree),
    WF t → (∀ p ∈ ps, rect_contains t.boundary p.position = true) →
    insertAll fuel t ps = some t2 →
    WF t2 ∧ t2.boundary = t.boundary ∧
      toMultiset t2 = Multiset.ofList ps + toMultiset t := by
  intro ps
  induction ps with
  | nil =>
    intro fuel t t2 hwf _ h
    simp only [insertAll, Option.some.injEq] at h
    subst h
    refine ⟨hwf, rfl, ?_⟩
    simp
  | cons q qs ih =>
    intro fuel t t2 hwf hall h
    simp only [insertAll] at h
    cases e : QuadTree.insert fuel t (some q) with
    | none => rw [e] at h; simp at h
    | some s =>
      rw [e] at h
      simp only [Option.some_bind] at h
      obtain ⟨hr, hwf1, hb1, hm1⟩ :=
        insert_stores fuel t q s.1 s.2 hwf (hall q (by simp)) (by rw [e])
      obtain ⟨hwf2, hb2, hm2⟩ := ih fuel s.1 t2 hwf1
        (by intro x hx; rw [hb1]; exact hall x (by simp [hx])) h
      refine ⟨hwf2, by rw [hb2, hb1], ?_⟩
      rw [hm2, hm1]
      simp only [← Multiset.cons_coe, Multiset.cons_add, Multiset.add_cons]

/-- On a well-formed tree whose boundary sits inside the query window, the
source's `query` returns precisely all stored points: every node passes the
overlap test, and the item filter (which tests the node's own boundary) keeps
every stored item. -/
theorem query_eq_toList : ∀ {t : QuadTree}, WF t → ∀ (range : Rectangle),
    rectSub t.boundary range →
    QuadTree.query t range = some (QuadTree.toList t) := by
  intro t hwf
  induction hwf with
  | leaf b c pts hw hh hpts =>
    intro range hsub
    simp only [QuadTree.boundary] at hsub
    simp only [QuadTree.query]
    rw [if_pos (overlap_of_sub b range hsub hw hh)]
    simp only [Bool.false_eq_true, if_false, Option.some.injEq]
    rw [List.filter_eq_self.mpr hpts, toList_no_children]
  | split b c pts u1 u2 u3 u4 hw hh hpts hb1 hb2 hb3 hb4 h1 h2 h3 h4 ih1 ih2 ih3 ih4 =>
    intro range hsub
    simp only [QuadTree.boundary] at hsub
    obtain ⟨s1, s2, s3, s4⟩ := quarter_sub b hw hh
    have hq1 : rectSub u1.boundary range := by rw [hb1]; exact rectSub_trans s1 hsub
    have hq2 : rectSub u2.boundary range := by rw [hb2]; exact rectSub_trans s2 hsub
    have hq3 : rectSub u3.boundary range := by rw [hb3]; exact rectSub_trans s3 hsub
    have hq4 : rectSub u4.boundary range := by rw [hb4]; exact rectSub_trans s4 hsub
    simp only [QuadTree.query]
    rw [if_pos (overlap_of_sub b range hsub hw hh)]
    simp only [if_true]
    rw [ih1 range hq1, ih2 range hq2, ih3 range hq3, ih4 range hq4]
    simp only [Option.some_bind, Option.map_some', Option.some.injEq]
    rw [List.filter_eq_self.mpr hpts, toList_four_children]

/-- Claim C5 (confirmed): inserting any finite list of particles (all of them
inside the root boundary) into a freshly created partition and then querying
the full root boundary returns exactly the inserted multiset — no particle is
lost and none is duplicated.  The hypothesis `insertAll fuel … = some t`
states that the insertion runs to completion (it rules out the
capacity-0/coincident-point divergence, where there is no "after
inserting"). -/
theorem partition_containment (b : Rectangle) (cap fuel : Nat) (ps : List Particle)
    (t : QuadTree)
    (hins : insertAll fuel (QuadTree.new b cap) ps = some t)
    (hall : ∀ p ∈ ps, rect_contains b p.position = true) :
    queryMultiset t b = some (Multiset.ofList ps) := by
  cases ps with
  | nil =>
    simp only [insertAll, Option.some.injEq] at hins
    subst hins
    simp only [queryMultiset, QuadTree.new, QuadTree.query]
    split <;> simp
  | cons q qs =>
    have hq := (rect_contains_iff b q.position).mp (hall q (by simp))
    have hw : 0 ≤ b.width := by linarith [hq.1, hq.2.1]
    have hh : 0 ≤ b.height := by linarith [hq.2.2.1, hq.2.2.2]
    obtain ⟨hwf, hb, hm⟩ := insertAll_stores (q :: qs) fuel (QuadTree.new b cap) t
      (wf_new b cap hw hh)
      (by simpa [QuadTree.new, QuadTree.boundary] using hall) hins
    have hbb : t.boundary = b := by simpa [QuadTree.new, QuadTree.boundary] using hb
    have hquery := query_eq_toList hwf b (by rw [hbb]; exact rectSub_refl b)
    rw [queryMultiset, hquery]
    simp only [Option.map_some', Option.some.injEq]
    have : toMultiset t = Multiset.ofList (q :: qs) := by
      rw [hm, toMultiset_new, add_zero]
    exact this

section ConcreteContainment

attribute [local semireducible] Rat.mul Rat.add Rat.sub Rat.div Rat.inv
attribute [local semireducible] Rat.normalize Rat.ofScientific

/-- Witness for C5: two particles inserted into a fresh tree over `b0`;
querying the root boundary returns exactly that pair. -/
theorem partition_containment_witness :
    queryMultiset tC5 b0 = some (Multiset.ofList [pa, pb]) :=
  partition_containment b0 4 3 [pa, pb] tC5 (by rfl) (by decide)

end ConcreteContainment
